import Mathlib

/-!
Verification of the dst2ak decoding pipeline.

Shallow embedding, in Lean, of the core modules of the repository:
`blockreader.py` (CRC-CCITT engine and 32000-byte block framing),
`bankassembler.py` (opcode-driven bank reassembly state machine),
`eventassembler.py` (grouping of banks into events), and
`recipe_reader.py` (recipe-driven typed payload decoding).

Byte streams are modelled as `List Nat` (each element a byte value),
machine integers as `Nat`/`Int` with explicit masking where the source
masks, and fallible code as `Except`.
-/

namespace Dst2ak

/-! ### CRC-CCITT engine, from `blockreader.py` -/

/-- Nibble-reversal lookup `_IT` used to build the byte-reflection table. -/
def IT : List Nat :=
  [0x0, 0x8, 0x4, 0xC, 0x2, 0xA, 0x6, 0xE,
   0x1, 0x9, 0x5, 0xD, 0x3, 0xB, 0x7, 0xF]

/-- Entry `j` of the reflection table `_RCHR`: `(_IT[j and 0x0F] shl 4) or _IT[(j shr 4) and 0x0F]`.
The Python code precomputes the 256-entry list `_RCHR`; we give the entry
as a function of the index, which agrees with the list on indices below 256. -/
def rchr (j : Nat) : Nat :=
  (IT.getD (j &&& 0x0F) 0) <<< 4 ||| IT.getD ((j >>> 4) &&& 0x0F) 0

/-- Core step `_dst_icrc1`: polynomial 0x1021, 16-bit arithmetic.
Eight rounds of shift-left, xoring 0x1021 when the high bit was set. -/
def dst_icrc1 (crc onech : Nat) : Nat :=
  let ans := (crc ^^^ ((onech &&& 0xFF) <<< 8)) &&& 0xFFFF
  (List.range 8).foldl
    (fun a _ => if a &&& 0x8000 ≠ 0 then ((a <<< 1) ^^^ 0x1021) &&& 0xFFFF
                else (a <<< 1) &&& 0xFFFF) ans

/-- Entry `j` of the precomputed table `_ICRCTAB = [_dst_icrc1(j << 8, 0) for j in range(256)]`. -/
def icrctab (j : Nat) : Nat := dst_icrc1 (j <<< 8) 0

/-- One per-byte update of the CRC running state, the loop body of `_crc_ccitt_dst`. -/
def crcUpdate (cword b : Nat) : Nat :=
  let idx := rchr b ^^^ ((cword >>> 8) &&& 0xFF)
  (icrctab idx ^^^ ((cword &&& 0xFF) <<< 8)) &&& 0xFFFF

/-- `_crc_ccitt_dst`: reflect each input byte, table-update the 16-bit state
starting from 0, then reflect out both bytes of the final state. -/
def crc_ccitt_dst (payload : List Nat) : Nat :=
  let cword := payload.foldl crcUpdate 0
  let hi := (cword >>> 8) &&& 0xFF
  let lo := cword &&& 0xFF
  (rchr hi ||| (rchr lo <<< 8)) &&& 0xFFFF

/-! ### Reference CRC algorithm, stated from the specification's words -/

/-- Modelled from the spec: the 256-entry reflect table maps a byte to its
bit-reversed byte; bit `i` of the input becomes bit `7 - i` of the output. -/
def reflect8 (b : Nat) : Nat :=
  (List.range 8).foldl (fun a i => a ||| (((b >>> i) &&& 1) <<< (7 - i))) 0

/-- Modelled from the spec: `step` performs 8 rounds of shift-left,
XOR 0x1021 when the high bit was set, each masked to 16 bits. -/
def specStep8 (x : Nat) : Nat :=
  (List.range 8).foldl
    (fun a _ => if a &&& 0x8000 ≠ 0 then ((a <<< 1) ^^^ 0x1021) &&& 0xFFFF
                else (a <<< 1) &&& 0xFFFF) x

/-- Modelled from the spec: the polynomial table entry `T[j] = step(j shl 8, 0)`. -/
def specT (j : Nat) : Nat := specStep8 (j <<< 8)

/-- Modelled from the spec: per-byte update
`idx = reflect[b] xor high_byte(state); state = T[idx] xor (low_byte(state) shl 8)`,
masked to 16 bits. -/
def specCrcUpdate (state b : Nat) : Nat :=
  let idx := reflect8 b ^^^ ((state >>> 8) &&& 0xFF)
  (specT idx ^^^ ((state &&& 0xFF) <<< 8)) &&& 0xFFFF

/-- Modelled from the spec: the reference reflected CRC-CCITT, start state 0,
final value `reflect[high_byte(state)] or (reflect[low_byte(state)] shl 8)`. -/
def specCrc (payload : List Nat) : Nat :=
  let state := payload.foldl specCrcUpdate 0
  reflect8 ((state >>> 8) &&& 0xFF) ||| (reflect8 (state &&& 0xFF) <<< 8)

/-! ### Block reader, from `blockreader.py` -/

/-- Block length, matching the C `BlockLen`. -/
def BLOCK_LEN : Nat := 32000

/-- Little-endian 32-bit value of the first four bytes of a list,
the semantics of `struct.unpack` with a 4-byte little-endian unsigned format. -/
def readU32le (s : List Nat) : Nat :=
  s.getD 0 0 + s.getD 1 0 * 256 + s.getD 2 0 * 65536 + s.getD 3 0 * 16777216

/-- Fatal errors of `BlockReader.__iter__` (raised as `ValueError` in the source). -/
inductive BlockErr
  | shortBlock (got : Nat)
  | crcMismatch (idx expected actual : Nat)
  deriving Repr, DecidableEq

/-- The iteration loop of `BlockReader.__iter__` over a byte stream modelled as a
list: a zero-byte read ends the sequence, a short non-empty read is fatal,
otherwise split a 32000-byte frame into payload and 4-byte little-endian CRC
trailer, verify the low 16 bits against the CRC engine, and yield the payload
with its index. A file read of `BLOCK_LEN` bytes returns `min BLOCK_LEN remaining`
bytes, so the read is `List.take BLOCK_LEN`. -/
def readBlocks (bytes : List Nat) (idx : Nat) : Except BlockErr (List (Nat × List Nat)) :=
  if h : bytes = [] then .ok []
  else if bytes.length < BLOCK_LEN then .error (.shortBlock bytes.length)
  else
    let frame := bytes.take BLOCK_LEN
    let payload := frame.take (BLOCK_LEN - 4)
    let expected := readU32le (frame.drop (BLOCK_LEN - 4)) &&& 0xFFFF
    let actual := crc_ccitt_dst payload
    if actual ≠ expected then .error (.crcMismatch idx expected actual)
    else (readBlocks (bytes.drop BLOCK_LEN) (idx + 1)).map (fun rest => (idx, payload) :: rest)
termination_by bytes.length
decreasing_by
  simp only [List.length_drop, BLOCK_LEN]
  have : 0 < bytes.length := List.length_pos.mpr h
  omega

/-! ### Bank assembler, from `bankassembler.py` -/

/-- Stream-level opcode sentinel. -/
def OPCODE : Nat := 0x60
/-- Block-framing verb: start of block, followed by a 4-byte block number. -/
def START_BLOCK : Nat := 97
/-- Block-framing verb: logical end of block. -/
def END_BLOCK_LOGICAL : Nat := 98
/-- Block-framing verb: physical end of block. -/
def END_BLOCK_PHYSICAL : Nat := 99
/-- Padding verb. -/
def FILLER : Nat := 100
/-- Bank verb: begin a new bank segment. -/
def START_BANK : Nat := 7
/-- Bank verb: continue the current bank with another segment. -/
def CONTINUE : Nat := 8
/-- Bank verb: bank complete, followed by a 4-byte packed CRC. -/
def END_BANK : Nat := 14
/-- Bank verb: segment suspended, followed by 5 trailing bytes to skip. -/
def TO_BE_CONTD : Nat := 15

/-- A reassembled bank: id and version from the first eight payload bytes,
and the full payload as `data`. -/
structure Bank where
  bank_id : Nat
  bank_version : Nat
  data : List Nat
  deriving Repr, DecidableEq

/-- Fatal errors of `BankAssembler.__iter__` (raised as `ValueError` in the source). -/
inductive BankErr
  | bankCrcMismatch (expected actual : Nat)
  | bankTooShort
  deriving Repr, DecidableEq

/-- The loop of `BankAssembler.__iter__` over the concatenated block payloads,
modelled as a single byte list (the `_ByteStream` reads cross block boundaries,
so the concatenation is exact).  `started` and `buf` are the `started` flag and
`bank_buf` accumulator.  Reads that run past the end of the stream
(`read1` / `read_exact` / `read_u32le` returning `None`) end the output; a
`read_exact n` succeeds exactly when `n` bytes remain, returning the next `n`
bytes, hence the explicit length tests.  After `START_BLOCK` the source reads a
4-byte block number without checking for `None`; when fewer than 4 bytes remain
that read exhausts the stream and the next `read1` returns `None`, so the
observable result is likewise the end of the output. -/
def assemble : List Nat → Bool → List Nat → Except BankErr (List Bank)
  | [], _, _ => .ok []
  | b :: rest, started, buf =>
    if b ≠ OPCODE then assemble rest started buf
    else
      match rest with
      | [] => .ok []
      | verb :: r2 =>
        if verb = START_BLOCK then
          if 4 ≤ r2.length then assemble (r2.drop 4) started buf else .ok []
        else if verb = END_BLOCK_LOGICAL then assemble r2 started buf
        else if verb = END_BLOCK_PHYSICAL then assemble r2 started buf
        else if verb = FILLER then assemble r2 started buf
        else if verb = START_BANK ∨ verb = CONTINUE then
          let buf1 := if verb = CONTINUE ∧ started then buf else []
          if 4 ≤ r2.length then
            let L := readU32le (r2.take 4)
            let r3 := r2.drop 4
            if L ≤ r3.length then assemble (r3.drop L) true (buf1 ++ r3.take L)
            else .ok []
          else .ok []
        else if verb = TO_BE_CONTD then
          if 5 ≤ r2.length then assemble (r2.drop 5) started buf else .ok []
        else if verb = END_BANK then
          if 4 ≤ r2.length then
            let expected := readU32le (r2.take 4) &&& 0xFFFF
            let actual := crc_ccitt_dst buf
            if (actual &&& 0xFFFF) ≠ expected then .error (.bankCrcMismatch expected actual)
            else if buf.length < 8 then .error .bankTooShort
            else (assemble (r2.drop 4) false []).map
              (fun bs => ⟨readU32le (buf.take 4), readU32le ((buf.drop 4).take 4), buf⟩ :: bs)
          else .ok []
        else assemble r2 started buf
termination_by s _ _ => s.length
decreasing_by
  all_goals simp only [List.length_cons, List.length_drop]
  all_goals omega

/-- `BankAssembler.__iter__` from its initial state: no bank open, empty buffer. -/
def bankAssemble (s : List Nat) : Except BankErr (List Bank) :=
  assemble s false []

/-! ### Event assembler, from `eventassembler.py` -/

/-- An event: an ordered group of banks. -/
structure Event where
  banks : List Bank
  deriving Repr, DecidableEq

/-- Configuration of the event assembler: the start/stop marker bank ids and
whether marker banks are kept in the emitted event. -/
structure EvCfg where
  startId : Nat
  stopId : Nat
  keepMarkers : Bool
  deriving Repr, DecidableEq

/-- One iteration of the `for bank in BankAssembler(...)` loop of
`EventAssembler._iter_events`.  The state is `(in_event, banks, emitted)`;
emitted events are appended to the third component in yield order.  A start
marker emits the open event only when its accumulated list is non-empty
(`if in_event and banks:` — an empty list is falsy in Python). -/
def eventStep (cfg : EvCfg) (st : Bool × List Bank × List Event) (bank : Bank) :
    Bool × List Bank × List Event :=
  let inEvent := st.1
  let banks := st.2.1
  let out := st.2.2
  if bank.bank_id = cfg.startId then
    let out1 := if inEvent ∧ banks ≠ [] then out ++ [⟨banks⟩] else out
    (true, if cfg.keepMarkers then [bank] else [], out1)
  else if bank.bank_id = cfg.stopId then
    if inEvent then
      (false, [], out ++ [⟨if cfg.keepMarkers then banks ++ [bank] else banks⟩])
    else (false, [], out)
  else
    (inEvent, if inEvent then banks ++ [bank] else banks, out)

/-- The full event sequence produced by `EventAssembler._iter_events` over a
list of banks: fold the loop body from the initial state (no event open). -/
def runEvents (cfg : EvCfg) (bs : List Bank) : List Event :=
  (bs.foldl (eventStep cfg) (false, [], [])).2.2

/-! ### Recipe decoder, from `recipe_reader.py` -/

/-- Typed values produced by the decoder and stored in the result mapping.
`struct.unpack` float formats return IEEE-754 floating-point values; we
represent a float by the little-endian bit pattern it was read from, since
no claim depends on float arithmetic.  Comparison expressions produce
Python booleans; `bool` is kept distinct from `int` as in Python. -/
inductive PyVal
  | int (n : Int)
  | bool (b : Bool)
  | float32 (bits : Nat)
  | float64 (bits : Nat)
  | list (vs : List PyVal)
  deriving Repr, BEq

/-- Errors raised by the recipe decoder: `ValueError("Truncated data")` from
`_unpack_values`, and the Python `IndexError` / `KeyError` / `NameError` /
`TypeError` that evaluation and `vals[0]` indexing can raise. -/
inductive RecErr
  | truncated
  | indexError
  | keyError
  | nameError
  | typeError
  deriving Repr, DecidableEq

/-- Binary arithmetic operators of the Python expression fragment. -/
inductive PyBinop
  | add | sub | mul
  deriving Repr, DecidableEq

/-- Comparison operators of the Python expression fragment. -/
inductive PyCmp
  | eq | ne | lt | le | gt | ge
  deriving Repr, DecidableEq

/-- Deep embedding of the expression strings handed to `_eval_expr`.
`dollar k` is the dollar-brace form `_eval_expr` recognizes directly
(`ctx[key]` lookup).  Every other string is handed to the Python builtin
`eval(expr, empty-globals, ctx)`; we embed the fragment of Python expression
syntax the recipes and claims use — names resolved in `ctx`, integer
literals, `+ - *` arithmetic, comparisons, and subscripting. -/
inductive PyExpr
  | dollar (key : String)
  | name (key : String)
  | lit (n : Int)
  | binop (op : PyBinop) (a b : PyExpr)
  | cmp (op : PyCmp) (a b : PyExpr)
  | index (a : PyExpr) (i : PyExpr)
  deriving Repr, DecidableEq

/-- The expression-evaluation context: Python dict from field name to value,
modelled as an association list where the most recent binding shadows. -/
def Ctx := List (String × PyVal)

/-- Python int coercion of a value used where an int is required
(`range(...)` bounds and counts): ints pass through, bools are 0/1,
anything else raises `TypeError`. -/
def toIntCoerce : PyVal → Except RecErr Int
  | .int n => .ok n
  | .bool b => .ok (if b then 1 else 0)
  | _ => .error .typeError

/-- Python truthiness of the modelled values (`if not _eval_expr(...)`).
A float is falsy exactly when its bit pattern encodes positive or
negative zero. -/
def truthy : PyVal → Bool
  | .int n => n ≠ 0
  | .bool b => b
  | .float32 bits => bits &&& 0x7FFFFFFF ≠ 0
  | .float64 bits => bits &&& 0x7FFFFFFFFFFFFFFF ≠ 0
  | .list vs => ¬ vs.isEmpty

/-- `_eval_expr`: the dollar-brace form is looked up directly in `ctx`
(`KeyError` when absent); every other expression is evaluated by the Python
builtin `eval` with empty globals and `ctx` as locals, modelled here on the
embedded fragment: a bare name resolves in `ctx` (`NameError` when absent),
arithmetic and comparisons coerce their operands to int, and subscripting
indexes a stored list (with Python negative indexing). -/
def eval_expr : PyExpr → Ctx → Except RecErr PyVal
  | .dollar k, ctx =>
    match List.lookup k ctx with
    | some v => .ok v
    | none => .error .keyError
  | .name k, ctx =>
    match List.lookup k ctx with
    | some v => .ok v
    | none => .error .nameError
  | .lit n, _ => .ok (.int n)
  | .binop op a b, ctx => do
    let x ← toIntCoerce (← eval_expr a ctx)
    let y ← toIntCoerce (← eval_expr b ctx)
    .ok (.int (match op with | .add => x + y | .sub => x - y | .mul => x * y))
  | .cmp op a b, ctx => do
    let x ← toIntCoerce (← eval_expr a ctx)
    let y ← toIntCoerce (← eval_expr b ctx)
    .ok (.bool (match op with
      | .eq => x = y | .ne => x ≠ y | .lt => x < y
      | .le => x ≤ y | .gt => x > y | .ge => x ≥ y))
  | .index a i, ctx => do
    let va ← eval_expr a ctx
    let vi ← toIntCoerce (← eval_expr i ctx)
    match va with
    | .list vs =>
      let j := if vi < 0 then vi + vs.length else vi
      if 0 ≤ j ∧ j < (vs.length : Int) then .ok (vs.getD j.toNat (.int 0))
      else .error .indexError
    | _ => .error .typeError

/-- The free field names an expression looks up. -/
def freeVars : PyExpr → List String
  | .dollar k => [k]
  | .name k => [k]
  | .lit _ => []
  | .binop _ a b => freeVars a ++ freeVars b
  | .cmp _ a b => freeVars a ++ freeVars b
  | .index a i => freeVars a ++ freeVars i

/-- Modelled from the spec: an atomic form of the claimed closed expression
grammar — a symbolic lookup of a previously stored field (directly or
subscripted by a loop index or literal) or an integer literal. -/
def specAtom : PyExpr → Bool
  | .dollar _ => true
  | .name _ => true
  | .lit _ => true
  | .index (.name _) (.lit _) => true
  | .index (.name _) (.name _) => true
  | _ => false

/-- Modelled from the spec: the claimed closed expression grammar — symbolic
lookups of previously stored field values, integer literals, and simple
comparison/equality forms between such atoms. -/
def specClosedForm : PyExpr → Bool
  | .cmp _ a b => specAtom a && specAtom b
  | e => specAtom e

/-- The primitive type tags declared in `TYPE_FMT` / `SIZEOF`. -/
inductive Ty
  | i4      -- format <i : 32-bit signed
  | i2asi4  -- format <h : 16-bit signed stored, promoted to 32
  | i4asui2 -- format <H : unsigned 16 promoted to 32
  | r4      -- format <f : 32-bit float
  | r8      -- format <d : 64-bit float
  deriving Repr, DecidableEq

/-- `SIZEOF`: the stored byte width of each type tag. -/
def SIZEOF : Ty → Nat
  | .i4 => 4
  | .i2asi4 => 2
  | .i4asui2 => 2
  | .r4 => 4
  | .r8 => 8

/-- Whether a tag decodes to an integer value (as opposed to a float). -/
def isIntTy : Ty → Bool
  | .i4 => true
  | .i2asi4 => true
  | .i4asui2 => true
  | .r4 => false
  | .r8 => false

/-- Little-endian value of a byte list. -/
def leVal (bytes : List Nat) : Nat :=
  bytes.foldr (fun b acc => b + 256 * acc) 0

/-- Two's-complement reading of a `w`-bit unsigned value, the semantics of the
signed `struct` formats. -/
def toSigned (w : Nat) (u : Nat) : Int :=
  if u < 2 ^ (w - 1) then (u : Int) else (u : Int) - 2 ^ w

/-- One `struct.unpack(fmt, chunk)` of a chunk of `SIZEOF f` bytes, little
endian, per the formats of `TYPE_FMT`; the `int(val)` promotion applied to
`i2asi4` / `i4asui2` is the identity on the already-integral value. -/
def decodeLE : Ty → List Nat → PyVal
  | .i4, bytes => .int (toSigned 32 (leVal bytes))
  | .i2asi4, bytes => .int (toSigned 16 (leVal bytes))
  | .i4asui2, bytes => .int (leVal bytes)
  | .r4, bytes => .float32 (leVal bytes)
  | .r8, bytes => .float64 (leVal bytes)

/-- `_unpack_values`: read `count` values of type `f` starting at `offset`,
each from the slice `data[offset : offset + size]`, failing with the
truncation error when the slice is short, and advancing the offset by the
stored width per value. -/
def unpack_values (data : List Nat) : Nat → Ty → Nat → Except RecErr (List PyVal × Nat)
  | offset, _, 0 => .ok ([], offset)
  | offset, f, n + 1 =>
    let size := SIZEOF f
    let chunk := (data.drop offset).take size
    if chunk.length < size then .error .truncated
    else
      (unpack_values data (offset + size) f n).map
        (fun p => (decodeLE f chunk :: p.1, p.2))

/-- A recipe count: the recipe TOML holds either a plain integer, used via
`int(count_expr)`, or a string expression evaluated by `_eval_expr`. -/
inductive CountExpr
  | lit (n : Int)
  | expr (e : PyExpr)
  deriving Repr, DecidableEq

/-- A loop descriptor: loop variable name and bound expression. -/
structure LoopSpec where
  var : String
  bound : PyExpr
  deriving Repr, DecidableEq

/-- One recipe operation, the fields `interpret_recipe` reads from the op
dict: `isUnpack` records whether `op.get("op") == "unpack"`. -/
structure RecipeOp where
  isUnpack : Bool
  func : Ty
  field : String
  count : CountExpr
  cond : Option PyExpr := none
  loop : Option LoopSpec := none
  guard : Option PyExpr := none
  deriving Repr, DecidableEq

/-- Evaluation of a count: `_eval_expr(count_expr, ctx) if isinstance(count_expr, str)
else int(count_expr)`, with the int coercion Python's own uses of the value
(`range`, `_unpack_values` iteration) require. -/
def evalCount (c : CountExpr) (ctx : Ctx) : Except RecErr Int :=
  match c with
  | .lit n => .ok n
  | .expr e => do toIntCoerce (← eval_expr e ctx)

/-- The selection `vals if count > 1 else vals[0]`: Python's `vals[0]` raises
`IndexError` on an empty list. -/
def selectVals (count : Int) (vals : List PyVal) : Except RecErr PyVal :=
  if count > 1 then .ok (.list vals)
  else
    match vals with
    | [] => .error .indexError
    | v :: _ => .ok v

/-- The `for i in range(bound)` loop of the loop-descriptor branch of
`interpret_recipe`: per iteration, bind the loop variable, test the guard
(skipping the iteration, consuming no bytes, when falsy), evaluate the count,
unpack, and append the selected item to `collected`. -/
def runLoop (data : List Nat) (op : RecipeOp) (lvar : String) (result : Ctx) :
    List Int → Nat → List PyVal → Except RecErr (Nat × List PyVal)
  | [], offset, collected => .ok (offset, collected)
  | i :: is, offset, collected =>
    let ctx : Ctx := (lvar, PyVal.int i) :: result
    match op.guard with
    | some g =>
      match eval_expr g ctx with
      | .error e => .error e
      | .ok gv =>
        if ¬ truthy gv then runLoop data op lvar result is offset collected
        else do
          let count ← evalCount op.count ctx
          let vo ← unpack_values data offset op.func count.toNat
          let item ← selectVals count vo.1
          runLoop data op lvar result is vo.2 (collected ++ [item])
    | none => do
      let count ← evalCount op.count ctx
      let vo ← unpack_values data offset op.func count.toNat
      let item ← selectVals count vo.1
      runLoop data op lvar result is vo.2 (collected ++ [item])

/-- The body of the `for op in ops` loop of `interpret_recipe`, acting on the
state `(offset, result)`: non-unpack ops are skipped, a falsy `cond` skips the
op, a loop descriptor runs `runLoop` over `range(bound)` and stores the
collected list, and otherwise a single unpack stores the selected item.
A Python dict assignment `result[field] = v` is a shadowing prepend in the
association-list model. -/
def interpOp (data : List Nat) (st : Nat × Ctx) (op : RecipeOp) : Except RecErr (Nat × Ctx) :=
  if ¬ op.isUnpack then .ok st
  else do
    let ok ← match op.cond with
      | none => pure true
      | some c => (eval_expr c st.2).map truthy
    if ¬ ok then .ok st
    else
      match op.loop with
      | some l => do
        let bound ← toIntCoerce (← eval_expr l.bound st.2)
        let oc ← runLoop data op l.var st.2 ((List.range bound.toNat).map Int.ofNat) st.1 []
        .ok (oc.1, (op.field, PyVal.list oc.2) :: st.2)
      | none => do
        let count ← evalCount op.count st.2
        let vo ← unpack_values data st.1 op.func count.toNat
        let item ← selectVals count vo.1
        .ok (vo.2, (op.field, item) :: st.2)

/-- `interpret_recipe`: fold the per-op step over the ops from offset 0 and an
empty result mapping, returning the result mapping. -/
def interpret_recipe (data : List Nat) (ops : List RecipeOp) : Except RecErr Ctx :=
  (ops.foldlM (interpOp data) (0, [])).map (fun st => st.2)

end Dst2ak

namespace Dst2ak

/-! ## Theorems -/

set_option maxRecDepth 100000 in
/-- The table entry built from the nibble-reversal table agrees, below 256,
with the direct bit-reversal of a byte, and is itself a byte. -/
theorem rchr_spec (b : Nat) (hb : b < 256) : rchr b = reflect8 b ∧ rchr b < 256 := by
  have h : ∀ x : Fin 256, rchr x.val = reflect8 x.val ∧ rchr x.val < 256 := by decide
  exact h ⟨b, hb⟩

set_option maxRecDepth 100000 in
/-- The precomputed polynomial table agrees, below 256, with the table the
specification describes. -/
theorem icrctab_spec (j : Nat) (hj : j < 256) : icrctab j = specT j := by
  have h : ∀ x : Fin 256, icrctab x.val = specT x.val := by decide
  exact h ⟨j, hj⟩

/-- The per-byte updates of the code and of the reference algorithm agree on
byte inputs, for every running state. -/
theorem crcUpdate_eq_spec (c b : Nat) (hb : b < 256) : crcUpdate c b = specCrcUpdate c b := by
  obtain ⟨h1, h2⟩ := rchr_spec b hb
  have hmask : (c >>> 8) &&& 0xFF < 256 := lt_of_le_of_lt Nat.and_le_right (by norm_num)
  have hidx : rchr b ^^^ ((c >>> 8) &&& 0xFF) < 256 := by
    have := Nat.xor_lt_two_pow (n := 8) (x := rchr b) (y := (c >>> 8) &&& 0xFF)
      (by simpa using h2) (by simpa using hmask)
    simpa using this
  have h3 := icrctab_spec _ hidx
  simp only [crcUpdate, specCrcUpdate, ← h1, h3]

/-- Folds of functions that agree on the elements of the list agree. -/
theorem foldl_congr_mem {α β : Type} (l : List α) (f g : β → α → β)
    (hfg : ∀ c x, x ∈ l → f c x = g c x) (c : β) : l.foldl f c = l.foldl g c := by
  induction l generalizing c with
  | nil => rfl
  | cons x xs ih =>
    simp only [List.foldl_cons]
    rw [hfg c x (List.mem_cons_self x xs)]
    exact ih (fun d y hy => hfg d y (List.mem_cons_of_mem x hy)) _

/-- The CRC folds of the code and of the reference algorithm agree on byte
sequences, from every starting state. -/
theorem crc_foldl_eq_spec (l : List Nat) (h : ∀ b ∈ l, b < 256) (c : Nat) :
    l.foldl crcUpdate c = l.foldl specCrcUpdate c :=
  foldl_congr_mem l crcUpdate specCrcUpdate
    (fun d x hx => crcUpdate_eq_spec d x (h x hx)) c

/-- C1: For every byte sequence (including the empty sequence), the CRC engine
returns the 16-bit value defined by the reference reflected CRC-CCITT
algorithm: 256-entry byte-reflection table, polynomial table
`T[j] = step(j shl 8, 0)` with `step` as 8 rounds of shift-left XOR 0x1021 on a
set high bit masked to 16 bits, start state 0, per-byte update
`idx = reflect[b] xor high_byte(state); state = T[idx] xor (low_byte(state) shl 8)`
masked to 16 bits, and final value
`reflect[high_byte(state)] or (reflect[low_byte(state)] shl 8)`. -/
theorem crc_engine_matches_reference (payload : List Nat) (h : ∀ b ∈ payload, b < 256) :
    crc_ccitt_dst payload = specCrc payload ∧ crc_ccitt_dst payload < 65536 := by
  constructor
  · unfold crc_ccitt_dst specCrc
    dsimp only
    rw [crc_foldl_eq_spec payload h 0]
    set st := payload.foldl specCrcUpdate 0 with hst
    have hhi : (st >>> 8) &&& 0xFF < 256 := lt_of_le_of_lt Nat.and_le_right (by norm_num)
    have hlo : st &&& 0xFF < 256 := lt_of_le_of_lt Nat.and_le_right (by norm_num)
    obtain ⟨e1, l1⟩ := rchr_spec _ hhi
    obtain ⟨e2, l2⟩ := rchr_spec _ hlo
    rw [e1, e2]
    have hv : reflect8 ((st >>> 8) &&& 0xFF) ||| (reflect8 (st &&& 0xFF) <<< 8) < 65536 := by
      have ha : reflect8 ((st >>> 8) &&& 0xFF) < 65536 := lt_of_lt_of_le (e1 ▸ l1) (by norm_num)
      have hb : reflect8 (st &&& 0xFF) <<< 8 < 65536 := by
        rw [Nat.shiftLeft_eq]
        have := e2 ▸ l2
        omega
      have := Nat.or_lt_two_pow (n := 16) (by simpa using ha) (by simpa using hb)
      simpa using this
    have hmask := Nat.and_pow_two_sub_one_eq_mod
      (reflect8 ((st >>> 8) &&& 0xFF) ||| (reflect8 (st &&& 0xFF) <<< 8)) 16
    norm_num at hmask
    rw [hmask, Nat.mod_eq_of_lt hv]
  · exact lt_of_le_of_lt Nat.and_le_right (by norm_num)

/-- Witness for C1: the reference test vector "123456789" (and its CRC 0x2189). -/
theorem crc_engine_matches_reference_witness :
    crc_ccitt_dst [0x31, 0x32, 0x33, 0x34, 0x35, 0x36, 0x37, 0x38, 0x39] =
      specCrc [0x31, 0x32, 0x33, 0x34, 0x35, 0x36, 0x37, 0x38, 0x39] ∧
    crc_ccitt_dst [0x31, 0x32, 0x33, 0x34, 0x35, 0x36, 0x37, 0x38, 0x39] < 65536 :=
  crc_engine_matches_reference _ (by decide)

/-- The CRC of an all-zero payload is zero: the state never leaves zero. -/
theorem crc_replicate_zero (n : Nat) : crc_ccitt_dst (List.replicate n 0) = 0 := by
  have hstep : crcUpdate 0 0 = 0 := by decide
  have hfold : ∀ m, (List.replicate m 0).foldl crcUpdate 0 = 0 := by
    intro m
    induction m with
    | zero => rfl
    | succ k ih => simpa [List.replicate_succ, hstep] using ih
  unfold crc_ccitt_dst
  rw [hfold n]
  decide

/-- C2: each Block Reader step is a total case split: a zero-byte read ends the
sequence normally (an empty file yields zero blocks); a non-empty read shorter
than 32000 bytes is a fatal short-block error; a full 32000-byte frame splits
into a 31996-byte payload and a 4-byte little-endian trailer, and the payload
is yielded with its index exactly when the CRC engine's value over the payload
equals the trailer's low 16 bits (the high 16 bits are masked off, never
validated), otherwise a fatal CRC-mismatch error carrying the block index,
expected and actual checksum is raised and no further block is produced. -/
theorem blockReader_step_cases (bytes : List Nat) (idx : Nat) :
    (bytes = [] → readBlocks bytes idx = .ok [])
    ∧ (bytes ≠ [] → bytes.length < BLOCK_LEN →
        readBlocks bytes idx = .error (.shortBlock bytes.length))
    ∧ (BLOCK_LEN ≤ bytes.length →
        (crc_ccitt_dst ((bytes.take BLOCK_LEN).take (BLOCK_LEN - 4)) =
            readU32le ((bytes.take BLOCK_LEN).drop (BLOCK_LEN - 4)) &&& 0xFFFF →
          readBlocks bytes idx =
            (readBlocks (bytes.drop BLOCK_LEN) (idx + 1)).map
              (fun rest => (idx, (bytes.take BLOCK_LEN).take (BLOCK_LEN - 4)) :: rest))
        ∧ (crc_ccitt_dst ((bytes.take BLOCK_LEN).take (BLOCK_LEN - 4)) ≠
            readU32le ((bytes.take BLOCK_LEN).drop (BLOCK_LEN - 4)) &&& 0xFFFF →
          readBlocks bytes idx =
            .error (.crcMismatch idx
              (readU32le ((bytes.take BLOCK_LEN).drop (BLOCK_LEN - 4)) &&& 0xFFFF)
              (crc_ccitt_dst ((bytes.take BLOCK_LEN).take (BLOCK_LEN - 4)))))) := by
  have hne : BLOCK_LEN ≤ bytes.length → bytes ≠ [] := by
    intro hlen h
    subst h
    simp [BLOCK_LEN] at hlen
  refine ⟨fun h => ?_, fun h1 h2 => ?_, fun hlen => ⟨fun heq => ?_, fun hne2 => ?_⟩⟩
  · rw [readBlocks]; simp [h]
  · rw [readBlocks]; simp [h1, h2]
  · rw [readBlocks]
    simp only [dif_neg (hne hlen), if_neg (Nat.not_lt.mpr hlen)]
    simp [heq]
  · rw [readBlocks]
    simp only [dif_neg (hne hlen), if_neg (Nat.not_lt.mpr hlen)]
    simp [hne2]

/-- Witness for C2: an empty stream yields zero blocks; a 1-byte file is a
fatal short block; an all-zero 32000-byte frame (whose payload CRC is 0 and
whose trailer is 0) yields exactly its payload. -/
theorem blockReader_step_cases_witness :
    readBlocks [] 0 = .ok []
    ∧ readBlocks [7] 5 = .error (.shortBlock 1)
    ∧ readBlocks (List.replicate 31996 0 ++ [0, 0, 0, 0]) 0 =
        .ok [(0, List.replicate 31996 0)] := by
  refine ⟨(blockReader_step_cases [] 0).1 rfl,
          (blockReader_step_cases [7] 5).2.1 (by decide) (by decide), ?_⟩
  have hlen : (List.replicate 31996 (0 : Nat) ++ [0, 0, 0, 0]).length = 32000 := by
    rw [List.length_append, List.length_replicate]
    rfl
  have htake : (List.replicate 31996 (0 : Nat) ++ [0, 0, 0, 0]).take BLOCK_LEN =
      List.replicate 31996 (0 : Nat) ++ [0, 0, 0, 0] :=
    List.take_of_length_le (le_of_eq hlen)
  have hpay : ((List.replicate 31996 (0 : Nat) ++ [0, 0, 0, 0]).take BLOCK_LEN).take
      (BLOCK_LEN - 4) = List.replicate 31996 (0 : Nat) := by
    rw [htake]
    exact List.take_left' (List.length_replicate 31996 0)
  have htrail : ((List.replicate 31996 (0 : Nat) ++ [0, 0, 0, 0]).take BLOCK_LEN).drop
      (BLOCK_LEN - 4) = [0, 0, 0, 0] := by
    rw [htake]
    exact List.drop_left' (List.length_replicate 31996 0)
  have hdrop : (List.replicate 31996 (0 : Nat) ++ [0, 0, 0, 0]).drop BLOCK_LEN = [] :=
    List.drop_eq_nil_of_le (le_of_eq hlen)
  have hcrc : crc_ccitt_dst (((List.replicate 31996 (0 : Nat) ++ [0, 0, 0, 0]).take
      BLOCK_LEN).take (BLOCK_LEN - 4)) =
      readU32le (((List.replicate 31996 (0 : Nat) ++ [0, 0, 0, 0]).take BLOCK_LEN).drop
        (BLOCK_LEN - 4)) &&& 0xFFFF := by
    rw [hpay, htrail, crc_replicate_zero]
    decide
  have h := ((blockReader_step_cases (List.replicate 31996 (0 : Nat) ++ [0, 0, 0, 0]) 0).2.2
    (le_of_eq hlen.symm)).1 hcrc
  rw [h, hpay, hdrop, (blockReader_step_cases [] 1).1 rfl]
  rfl

/-- A byte that is not the opcode sentinel is skipped at a scan position. -/
theorem assemble_skip_one (b : Nat) (rest buf : List Nat) (st : Bool) (h : b ≠ OPCODE) :
    assemble (b :: rest) st buf = assemble rest st buf := by
  rw [assemble.eq_def]
  simp [h]

/-- A run of non-sentinel bytes at a scan position is skipped entirely. -/
theorem assemble_skip_run (junk : List Nat) (s buf : List Nat) (st : Bool)
    (h : ∀ b ∈ junk, b ≠ OPCODE) :
    assemble (junk ++ s) st buf = assemble s st buf := by
  induction junk with
  | nil => rfl
  | cons x xs ih =>
    rw [List.cons_append, assemble_skip_one x (xs ++ s) buf st (h x (List.mem_cons_self x xs))]
    exact ih (fun b hb => h b (List.mem_cons_of_mem x hb))

/-- An unrecognized verb after the sentinel is skipped silently. -/
theorem assemble_unknown_verb (verb : Nat) (r2 buf : List Nat) (st : Bool)
    (h : verb ∉ ([START_BLOCK, END_BLOCK_LOGICAL, END_BLOCK_PHYSICAL, FILLER,
                  START_BANK, CONTINUE, TO_BE_CONTD, END_BANK] : List Nat)) :
    assemble (OPCODE :: verb :: r2) st buf = assemble r2 st buf := by
  simp only [List.mem_cons, List.not_mem_nil, or_false, not_or] at h
  obtain ⟨h1, h2, h3, h4, h5, h6, h7, h8⟩ := h
  rw [assemble]
  simp [h1, h2, h3, h4, h5, h6, h7, h8]

/-- C3: on END_BANK the assembler reads a 4-byte little-endian word whose low
16 bits are the expected CRC; a CRC mismatch over the accumulated buffer is a
fatal error carrying expected and actual; on a match, a buffer shorter than 8
bytes is a fatal too-short error; otherwise a Bank is emitted whose id is the
first 4 buffer bytes little-endian, whose version is the next 4 bytes
little-endian, and whose data is the full buffer, and the state resets to
no-bank-open with an empty buffer. -/
theorem bankAssembler_end_bank (r2 buf : List Nat) (started : Bool) (h4 : 4 ≤ r2.length) :
    ((crc_ccitt_dst buf &&& 0xFFFF) ≠ (readU32le (r2.take 4) &&& 0xFFFF) →
      assemble (OPCODE :: END_BANK :: r2) started buf =
        .error (.bankCrcMismatch (readU32le (r2.take 4) &&& 0xFFFF) (crc_ccitt_dst buf)))
    ∧ ((crc_ccitt_dst buf &&& 0xFFFF) = (readU32le (r2.take 4) &&& 0xFFFF) →
        (buf.length < 8 →
          assemble (OPCODE :: END_BANK :: r2) started buf = .error .bankTooShort)
        ∧ (8 ≤ buf.length →
          assemble (OPCODE :: END_BANK :: r2) started buf =
            (assemble (r2.drop 4) false []).map
              (fun bs => ⟨readU32le (buf.take 4), readU32le ((buf.drop 4).take 4), buf⟩ :: bs))) := by
  refine ⟨fun hne => ?_, fun heq => ⟨fun hlt => ?_, fun hge => ?_⟩⟩
  · rw [assemble]
    norm_num [OPCODE, START_BLOCK, END_BLOCK_LOGICAL, END_BLOCK_PHYSICAL, FILLER,
      START_BANK, CONTINUE, END_BANK, TO_BE_CONTD, h4, hne]
  · rw [assemble]
    norm_num [OPCODE, START_BLOCK, END_BLOCK_LOGICAL, END_BLOCK_PHYSICAL, FILLER,
      START_BANK, CONTINUE, END_BANK, TO_BE_CONTD, h4, heq, hlt]
  · rw [assemble]
    norm_num [OPCODE, START_BLOCK, END_BLOCK_LOGICAL, END_BLOCK_PHYSICAL, FILLER,
      START_BANK, CONTINUE, END_BANK, TO_BE_CONTD, h4, heq, Nat.not_lt.mpr hge]

set_option maxRecDepth 100000 in
/-- Witness for C3: a bank buffer holding id 1 and version 2 is emitted when
the stream's CRC word matches, a zeroed CRC word is a mismatch error carrying
expected 0 and actual 0xB8C9, and a matching CRC over a 1-byte buffer is the
too-short error. -/
theorem bankAssembler_end_bank_witness :
    assemble [OPCODE, END_BANK, 0xC9, 0xB8, 0, 0] true [1, 0, 0, 0, 2, 0, 0, 0] =
      .ok [⟨1, 2, [1, 0, 0, 0, 2, 0, 0, 0]⟩]
    ∧ assemble [OPCODE, END_BANK, 0, 0, 0, 0] true [1, 0, 0, 0, 2, 0, 0, 0] =
      .error (.bankCrcMismatch 0 47305)
    ∧ assemble [OPCODE, END_BANK, 0xAD, 0x57, 0, 0] true [5] = .error .bankTooShort := by
  refine ⟨?_, ?_, ?_⟩
  · have h := ((bankAssembler_end_bank [0xC9, 0xB8, 0, 0] [1, 0, 0, 0, 2, 0, 0, 0] true
      (by decide)).2 (by decide)).2 (by decide)
    rw [h]
    show (assemble [] false []).map _ = _
    rw [assemble]
    rfl
  · have h := (bankAssembler_end_bank [0, 0, 0, 0] [1, 0, 0, 0, 2, 0, 0, 0] true
      (by decide)).1 (by decide)
    rw [h]
    rfl
  · have h := ((bankAssembler_end_bank [0xAD, 0x57, 0, 0] [5] true
      (by decide)).2 (by decide)).1 (by decide)
    rw [h]

/-- C4: START_BANK discards any open bank buffer; CONTINUE with no bank open
behaves identically to START_BANK; each then reads a 4-byte little-endian
length L and appends exactly the next L bytes to the bank buffer (CONTINUE on
an open bank appends after the existing bytes, in stream order); TO_BE_CONTD
consumes exactly 5 bytes and neither closes nor resets the buffer. -/
theorem bankAssembler_segment_rules (r2 buf : List Nat) (st : Bool) :
    (assemble (OPCODE :: START_BANK :: r2) st buf =
      assemble (OPCODE :: START_BANK :: r2) false [])
    ∧ (assemble (OPCODE :: CONTINUE :: r2) false buf =
      assemble (OPCODE :: START_BANK :: r2) false buf)
    ∧ (4 ≤ r2.length → readU32le (r2.take 4) ≤ (r2.drop 4).length →
        assemble (OPCODE :: START_BANK :: r2) st buf =
          assemble ((r2.drop 4).drop (readU32le (r2.take 4))) true
            ((r2.drop 4).take (readU32le (r2.take 4))))
    ∧ (4 ≤ r2.length → readU32le (r2.take 4) ≤ (r2.drop 4).length →
        assemble (OPCODE :: CONTINUE :: r2) true buf =
          assemble ((r2.drop 4).drop (readU32le (r2.take 4))) true
            (buf ++ (r2.drop 4).take (readU32le (r2.take 4))))
    ∧ (5 ≤ r2.length →
        assemble (OPCODE :: TO_BE_CONTD :: r2) st buf = assemble (r2.drop 5) st buf) := by
  refine ⟨?_, ?_, fun h4 hL => ?_, fun h4 hL => ?_, fun h5 => ?_⟩
  · rw [assemble, assemble]
    norm_num [OPCODE, START_BLOCK, END_BLOCK_LOGICAL, END_BLOCK_PHYSICAL, FILLER,
      START_BANK, CONTINUE, END_BANK, TO_BE_CONTD]
  · rw [assemble, assemble]
    norm_num [OPCODE, START_BLOCK, END_BLOCK_LOGICAL, END_BLOCK_PHYSICAL, FILLER,
      START_BANK, CONTINUE, END_BANK, TO_BE_CONTD]
  · rw [assemble]
    norm_num [OPCODE, START_BLOCK, END_BLOCK_LOGICAL, END_BLOCK_PHYSICAL, FILLER,
      START_BANK, CONTINUE, END_BANK, TO_BE_CONTD, h4, hL]
    intro hcon
    simp only [List.length_drop] at hL
    omega
  · rw [assemble]
    norm_num [OPCODE, START_BLOCK, END_BLOCK_LOGICAL, END_BLOCK_PHYSICAL, FILLER,
      START_BANK, CONTINUE, END_BANK, TO_BE_CONTD, h4, hL]
    intro hcon
    simp only [List.length_drop] at hL
    omega
  · rw [assemble]
    norm_num [OPCODE, START_BLOCK, END_BLOCK_LOGICAL, END_BLOCK_PHYSICAL, FILLER,
      START_BANK, CONTINUE, END_BANK, TO_BE_CONTD, h5]

/-- Witness for C4 at concrete streams: a START_BANK seen with an open buffer
behaves as from the clean state; CONTINUE with no bank open equals START_BANK;
a START_BANK segment of length 2 takes exactly the bytes 11, 22; a CONTINUE
segment appends after the open buffer; TO_BE_CONTD skips its 5 bytes keeping
the buffer. -/
theorem bankAssembler_segment_rules_witness :
    (assemble (OPCODE :: START_BANK :: [2, 0, 0, 0, 11, 22]) true [9] =
      assemble (OPCODE :: START_BANK :: [2, 0, 0, 0, 11, 22]) false [])
    ∧ (assemble (OPCODE :: CONTINUE :: [2, 0, 0, 0, 11, 22]) false [9] =
      assemble (OPCODE :: START_BANK :: [2, 0, 0, 0, 11, 22]) false [9])
    ∧ (assemble (OPCODE :: START_BANK :: [2, 0, 0, 0, 11, 22]) true [9] =
      assemble [] true [11, 22])
    ∧ (assemble (OPCODE :: CONTINUE :: [2, 0, 0, 0, 11, 22]) true [9] =
      assemble [] true [9, 11, 22])
    ∧ (assemble (OPCODE :: TO_BE_CONTD :: [1, 2, 3, 4, 5]) true [9] =
      assemble [] true [9]) := by
  have h1 := (bankAssembler_segment_rules [2, 0, 0, 0, 11, 22] [9] true).1
  have h2 := (bankAssembler_segment_rules [2, 0, 0, 0, 11, 22] [9] true).2.1
  have h3 := (bankAssembler_segment_rules [2, 0, 0, 0, 11, 22] [9] true).2.2.1
    (by decide) (by decide)
  have h4 := (bankAssembler_segment_rules [2, 0, 0, 0, 11, 22] [9] true).2.2.2.1
    (by decide) (by decide)
  have h5 := (bankAssembler_segment_rules [1, 2, 3, 4, 5] [9] true).2.2.2.2 (by decide)
  exact ⟨h1, h2, h3, h4, h5⟩

/-- C5: the assembler is self-synchronizing: a non-sentinel byte at a scan
position is skipped without error, an unrecognized verb after the sentinel is
skipped silently, and inserting a run of non-sentinel bytes at a scan position
leaves the entire result — banks and absence of errors — unchanged. -/
theorem bankAssembler_self_sync :
    (∀ b rest buf st, b ≠ OPCODE →
      assemble (b :: rest) st buf = assemble rest st buf)
    ∧ (∀ verb r2 buf st,
        verb ∉ ([START_BLOCK, END_BLOCK_LOGICAL, END_BLOCK_PHYSICAL, FILLER,
                 START_BANK, CONTINUE, TO_BE_CONTD, END_BANK] : List Nat) →
        assemble (OPCODE :: verb :: r2) st buf = assemble r2 st buf)
    ∧ (∀ junk s buf st, (∀ b ∈ junk, b ≠ OPCODE) →
        assemble (junk ++ s) st buf = assemble s st buf) :=
  ⟨fun b rest buf st h => assemble_skip_one b rest buf st h,
   fun verb r2 buf st h => assemble_unknown_verb verb r2 buf st h,
   fun junk s buf st h => assemble_skip_run junk s buf st h⟩

/-- Witness for C5: stray bytes 1, 2, 77 before a sentinel and the unknown
verb 42 after one are skipped. -/
theorem bankAssembler_self_sync_witness :
    assemble (5 :: [OPCODE, FILLER]) false [] = assemble [OPCODE, FILLER] false []
    ∧ assemble (OPCODE :: 42 :: [OPCODE, FILLER]) false [] = assemble [OPCODE, FILLER] false []
    ∧ assemble ([1, 2, 77] ++ [OPCODE, FILLER]) false [] = assemble [OPCODE, FILLER] false [] :=
  ⟨bankAssembler_self_sync.1 5 [OPCODE, FILLER] [] false (by decide),
   bankAssembler_self_sync.2.1 42 [OPCODE, FILLER] [] false (by decide),
   bankAssembler_self_sync.2.2 [1, 2, 77] [OPCODE, FILLER] [] false (by decide)⟩

/-- The empty stream assembles to no banks. -/
theorem assemble_nil (st : Bool) (buf : List Nat) : assemble [] st buf = .ok [] := by
  rw [assemble]

/-- A stream ending right after the sentinel (no verb byte) ends the output. -/
theorem assemble_lone_op (st : Bool) (buf : List Nat) : assemble [OPCODE] st buf = .ok [] := by
  rw [assemble]
  norm_num

/-- START_BLOCK consumes a 4-byte block number, leaving bank state untouched. -/
theorem assemble_start_block (r2 buf : List Nat) (st : Bool) (h4 : 4 ≤ r2.length) :
    assemble (OPCODE :: START_BLOCK :: r2) st buf = assemble (r2.drop 4) st buf := by
  rw [assemble]
  norm_num [OPCODE, START_BLOCK, h4]

/-- A stream ending inside START_BLOCK's block number ends the output. -/
theorem assemble_start_block_trunc (r2 buf : List Nat) (st : Bool) (h : r2.length < 4) :
    assemble (OPCODE :: START_BLOCK :: r2) st buf = .ok [] := by
  rw [assemble]
  norm_num [OPCODE, START_BLOCK, Nat.not_le.mpr h]

/-- The end-of-block verbs and FILLER are no-ops on the concatenated stream. -/
theorem assemble_noop_verbs (r2 buf : List Nat) (st : Bool) :
    assemble (OPCODE :: END_BLOCK_LOGICAL :: r2) st buf = assemble r2 st buf
    ∧ assemble (OPCODE :: END_BLOCK_PHYSICAL :: r2) st buf = assemble r2 st buf
    ∧ assemble (OPCODE :: FILLER :: r2) st buf = assemble r2 st buf := by
  refine ⟨?_, ?_, ?_⟩ <;>
  · rw [assemble]
    norm_num [OPCODE, START_BLOCK, END_BLOCK_LOGICAL, END_BLOCK_PHYSICAL, FILLER,
      START_BANK, CONTINUE, END_BANK, TO_BE_CONTD]

/-- The segment read of START_BANK: the buffer restarts from the taken bytes. -/
theorem assemble_sb_eq (r2 buf : List Nat) (st : Bool) (h4 : 4 ≤ r2.length)
    (hL : readU32le (r2.take 4) ≤ (r2.drop 4).length) :
    assemble (OPCODE :: START_BANK :: r2) st buf =
      assemble ((r2.drop 4).drop (readU32le (r2.take 4))) true
        ((r2.drop 4).take (readU32le (r2.take 4))) := by
  rw [assemble]
  norm_num [OPCODE, START_BLOCK, END_BLOCK_LOGICAL, END_BLOCK_PHYSICAL, FILLER,
    START_BANK, CONTINUE, END_BANK, TO_BE_CONTD, h4, hL]
  intro hcon
  simp only [List.length_drop] at hL
  omega

/-- The segment read of CONTINUE: appends when a bank is open, restarts when not. -/
theorem assemble_cont_eq (r2 buf : List Nat) (st : Bool) (h4 : 4 ≤ r2.length)
    (hL : readU32le (r2.take 4) ≤ (r2.drop 4).length) :
    assemble (OPCODE :: CONTINUE :: r2) st buf =
      assemble ((r2.drop 4).drop (readU32le (r2.take 4))) true
        ((if st then buf else []) ++ (r2.drop 4).take (readU32le (r2.take 4))) := by
  rw [assemble]
  norm_num [OPCODE, START_BLOCK, END_BLOCK_LOGICAL, END_BLOCK_PHYSICAL, FILLER,
    START_BANK, CONTINUE, END_BANK, TO_BE_CONTD, h4, hL]
  intro hcon
  simp only [List.length_drop] at hL
  omega

/-- A stream ending inside a segment length field ends the output. -/
theorem assemble_seg_trunc_len (r2 buf : List Nat) (st : Bool) (h : r2.length < 4) :
    assemble (OPCODE :: START_BANK :: r2) st buf = .ok []
    ∧ assemble (OPCODE :: CONTINUE :: r2) st buf = .ok [] := by
  constructor <;>
  · rw [assemble]
    norm_num [OPCODE, START_BLOCK, END_BLOCK_LOGICAL, END_BLOCK_PHYSICAL, FILLER,
      START_BANK, CONTINUE, END_BANK, TO_BE_CONTD, Nat.not_le.mpr h]

/-- A stream ending inside a segment's data bytes ends the output. -/
theorem assemble_seg_trunc_data (r2 buf : List Nat) (st : Bool) (h4 : 4 ≤ r2.length)
    (hL : (r2.drop 4).length < readU32le (r2.take 4)) :
    assemble (OPCODE :: START_BANK :: r2) st buf = .ok []
    ∧ assemble (OPCODE :: CONTINUE :: r2) st buf = .ok [] := by
  have hL' : ¬ (readU32le (r2.take 4) ≤ r2.length - 4) := by
    simp only [List.length_drop] at hL
    omega
  constructor <;>
  · rw [assemble]
    norm_num [OPCODE, START_BLOCK, END_BLOCK_LOGICAL, END_BLOCK_PHYSICAL, FILLER,
      START_BANK, CONTINUE, END_BANK, TO_BE_CONTD, h4, hL']

/-- TO_BE_CONTD consumes five bytes keeping the bank state. -/
theorem assemble_tbc_eq (r2 buf : List Nat) (st : Bool) (h5 : 5 ≤ r2.length) :
    assemble (OPCODE :: TO_BE_CONTD :: r2) st buf = assemble (r2.drop 5) st buf := by
  rw [assemble]
  norm_num [OPCODE, START_BLOCK, END_BLOCK_LOGICAL, END_BLOCK_PHYSICAL, FILLER,
    START_BANK, CONTINUE, END_BANK, TO_BE_CONTD, h5]

/-- A stream ending inside TO_BE_CONTD's five skip bytes ends the output. -/
theorem assemble_tbc_trunc (r2 buf : List Nat) (st : Bool) (h : r2.length < 5) :
    assemble (OPCODE :: TO_BE_CONTD :: r2) st buf = .ok [] := by
  rw [assemble]
  norm_num [OPCODE, START_BLOCK, END_BLOCK_LOGICAL, END_BLOCK_PHYSICAL, FILLER,
    START_BANK, CONTINUE, END_BANK, TO_BE_CONTD, Nat.not_le.mpr h]

/-- END_BANK with a mismatched CRC fails with the mismatch error. -/
theorem assemble_eb_mismatch (r2 buf : List Nat) (st : Bool) (h4 : 4 ≤ r2.length)
    (hne : (crc_ccitt_dst buf &&& 0xFFFF) ≠ (readU32le (r2.take 4) &&& 0xFFFF)) :
    assemble (OPCODE :: END_BANK :: r2) st buf =
      .error (.bankCrcMismatch (readU32le (r2.take 4) &&& 0xFFFF) (crc_ccitt_dst buf)) := by
  rw [assemble]
  norm_num [OPCODE, START_BLOCK, END_BLOCK_LOGICAL, END_BLOCK_PHYSICAL, FILLER,
    START_BANK, CONTINUE, END_BANK, TO_BE_CONTD, h4, hne]

/-- END_BANK with a matching CRC over a buffer shorter than 8 bytes fails. -/
theorem assemble_eb_short (r2 buf : List Nat) (st : Bool) (h4 : 4 ≤ r2.length)
    (heq : (crc_ccitt_dst buf &&& 0xFFFF) = (readU32le (r2.take 4) &&& 0xFFFF))
    (hlt : buf.length < 8) :
    assemble (OPCODE :: END_BANK :: r2) st buf = .error .bankTooShort := by
  rw [assemble]
  norm_num [OPCODE, START_BLOCK, END_BLOCK_LOGICAL, END_BLOCK_PHYSICAL, FILLER,
    START_BANK, CONTINUE, END_BANK, TO_BE_CONTD, h4, heq, hlt]

/-- END_BANK with a matching CRC over a complete buffer emits the bank and
resets the state. -/
theorem assemble_eb_emit (r2 buf : List Nat) (st : Bool) (h4 : 4 ≤ r2.length)
    (heq : (crc_ccitt_dst buf &&& 0xFFFF) = (readU32le (r2.take 4) &&& 0xFFFF))
    (hge : 8 ≤ buf.length) :
    assemble (OPCODE :: END_BANK :: r2) st buf =
      (assemble (r2.drop 4) false []).map
        (fun bs => ⟨readU32le (buf.take 4), readU32le ((buf.drop 4).take 4), buf⟩ :: bs) := by
  rw [assemble]
  norm_num [OPCODE, START_BLOCK, END_BLOCK_LOGICAL, END_BLOCK_PHYSICAL, FILLER,
    START_BANK, CONTINUE, END_BANK, TO_BE_CONTD, h4, heq, Nat.not_lt.mpr hge]

/-- A stream ending inside END_BANK's CRC word ends the output. -/
theorem assemble_eb_trunc (r2 buf : List Nat) (st : Bool) (h : r2.length < 4) :
    assemble (OPCODE :: END_BANK :: r2) st buf = .ok [] := by
  rw [assemble]
  norm_num [OPCODE, START_BLOCK, END_BLOCK_LOGICAL, END_BLOCK_PHYSICAL, FILLER,
    START_BANK, CONTINUE, END_BANK, TO_BE_CONTD, Nat.not_le.mpr h]

/-- Every bank in any successful assembly result is complete: its data is the
full reassembled buffer of at least 8 bytes, its id and version the first two
little-endian words of that buffer. -/
theorem assemble_ok_complete :
    ∀ (s : List Nat) (st : Bool) (buf : List Nat) (banks : List Bank),
      assemble s st buf = .ok banks →
      ∀ bk ∈ banks, 8 ≤ bk.data.length
        ∧ bk.bank_id = readU32le (bk.data.take 4)
        ∧ bk.bank_version = readU32le ((bk.data.drop 4).take 4) := by
  intro s st buf
  induction s, st, buf using assemble.induct with
  | case1 st buf =>
    intro banks h bk hbk
    rw [assemble_nil] at h
    injection h with h
    subst h
    exact absurd hbk (List.not_mem_nil bk)
  | case2 b rest st buf hb ih =>
    intro banks h bk hbk
    rw [assemble_skip_one b rest buf st hb] at h
    exact ih banks h bk hbk
  | case3 b st buf hb =>
    intro banks h bk hbk
    rw [not_not] at hb
    subst hb
    rw [assemble_lone_op] at h
    injection h with h
    subst h
    exact absurd hbk (List.not_mem_nil bk)
  | case4 b st buf hb r2 h4 ih =>
    intro banks h bk hbk
    rw [not_not] at hb
    subst hb
    rw [assemble_start_block r2 buf st h4] at h
    exact ih banks h bk hbk
  | case5 b st buf hb r2 h4 =>
    intro banks h bk hbk
    rw [not_not] at hb
    subst hb
    rw [assemble_start_block_trunc r2 buf st (Nat.not_le.mp h4)] at h
    injection h with h
    subst h
    exact absurd hbk (List.not_mem_nil bk)
  | case6 b st buf hb r2 _ ih =>
    intro banks h bk hbk
    rw [not_not] at hb
    subst hb
    rw [(assemble_noop_verbs r2 buf st).1] at h
    exact ih banks h bk hbk
  | case7 b st buf hb r2 _ _ ih =>
    intro banks h bk hbk
    rw [not_not] at hb
    subst hb
    rw [(assemble_noop_verbs r2 buf st).2.1] at h
    exact ih banks h bk hbk
  | case8 b st buf hb r2 _ _ _ ih =>
    intro banks h bk hbk
    rw [not_not] at hb
    subst hb
    rw [(assemble_noop_verbs r2 buf st).2.2] at h
    exact ih banks h bk hbk
  | case9 b st buf hb verb r2 hv1 hv2 hv3 hv4 hor buf1 h4 L r3 hL ih =>
    intro banks h bk hbk
    rw [not_not] at hb
    subst hb
    rcases hor with hv | hv
    · subst hv
      rw [assemble_sb_eq r2 buf st h4 hL] at h
      exact ih banks h bk hbk
    · subst hv
      cases st with
      | false =>
        rw [assemble_cont_eq r2 buf false h4 hL] at h
        exact ih banks h bk hbk
      | true =>
        rw [assemble_cont_eq r2 buf true h4 hL] at h
        exact ih banks h bk hbk
  | case10 b st buf hb verb r2 hv1 hv2 hv3 hv4 hor h4 L r3 hL =>
    intro banks h bk hbk
    rw [not_not] at hb
    subst hb
    have hL' : (r2.drop 4).length < readU32le (r2.take 4) := Nat.not_le.mp hL
    rcases hor with hv | hv
    · subst hv
      rw [(assemble_seg_trunc_data r2 buf st h4 hL').1] at h
      injection h with h
      subst h
      exact absurd hbk (List.not_mem_nil bk)
    · subst hv
      rw [(assemble_seg_trunc_data r2 buf st h4 hL').2] at h
      injection h with h
      subst h
      exact absurd hbk (List.not_mem_nil bk)
  | case11 b st buf hb verb r2 hv1 hv2 hv3 hv4 hor h4 =>
    intro banks h bk hbk
    rw [not_not] at hb
    subst hb
    have h4' : r2.length < 4 := Nat.not_le.mp h4
    rcases hor with hv | hv
    · subst hv
      rw [(assemble_seg_trunc_len r2 buf st h4').1] at h
      injection h with h
      subst h
      exact absurd hbk (List.not_mem_nil bk)
    · subst hv
      rw [(assemble_seg_trunc_len r2 buf st h4').2] at h
      injection h with h
      subst h
      exact absurd hbk (List.not_mem_nil bk)
  | case12 b st buf hb r2 h5 _ _ _ _ _ ih =>
    intro banks h bk hbk
    rw [not_not] at hb
    subst hb
    rw [assemble_tbc_eq r2 buf st h5] at h
    exact ih banks h bk hbk
  | case13 b st buf hb r2 h5 _ _ _ _ _ =>
    intro banks h bk hbk
    rw [not_not] at hb
    subst hb
    rw [assemble_tbc_trunc r2 buf st (Nat.not_le.mp h5)] at h
    injection h with h
    subst h
    exact absurd hbk (List.not_mem_nil bk)
  | case14 b st buf hb r2 h4 expected actual hne hn1 hn2 hn3 hn4 hn5 hn6 =>
    intro banks h bk hbk
    rw [not_not] at hb
    subst hb
    rw [assemble_eb_mismatch r2 buf st h4 hne] at h
    exact absurd h (by simp)
  | case15 b st buf hb r2 h4 expected actual hnne hlt hn1 hn2 hn3 hn4 hn5 hn6 =>
    intro banks h bk hbk
    rw [not_not] at hb
    subst hb
    rw [not_not] at hnne
    rw [assemble_eb_short r2 buf st h4 hnne hlt] at h
    exact absurd h (by simp)
  | case16 b st buf hb r2 h4 expected actual hnne hnlt hn1 hn2 hn3 hn4 hn5 hn6 ih =>
    intro banks h bk hbk
    rw [not_not] at hb
    subst hb
    rw [not_not] at hnne
    rw [assemble_eb_emit r2 buf st h4 hnne (Nat.not_lt.mp hnlt)] at h
    cases hx : assemble (List.drop 4 r2) false [] with
    | error e =>
      rw [hx] at h
      exact absurd h (by simp [Except.map])
    | ok bs =>
      rw [hx] at h
      simp only [Except.map] at h
      injection h with h
      subst h
      rcases List.mem_cons.mp hbk with hbk | hbk
      · subst hbk
        exact ⟨Nat.not_lt.mp hnlt, rfl, rfl⟩
      · exact ih bs hx bk hbk
  | case17 b st buf hb r2 h4 _ _ _ _ _ _ =>
    intro banks h bk hbk
    rw [not_not] at hb
    subst hb
    rw [assemble_eb_trunc r2 buf st (Nat.not_le.mp h4)] at h
    injection h with h
    subst h
    exact absurd hbk (List.not_mem_nil bk)
  | case18 b st buf hb verb r2 hv1 hv2 hv3 hv4 hor hv7 hv8 ih =>
    intro banks h bk hbk
    rw [not_not] at hb
    subst hb
    have hv56 := not_or.mp hor
    rw [assemble_unknown_verb verb r2 buf st (by
      simp only [List.mem_cons, List.not_mem_nil, or_false, not_or]
      exact ⟨hv1, hv2, hv3, hv4, hv56.1, hv56.2, hv7, hv8⟩)] at h
    exact ih banks h bk hbk

/-- C6: when the concatenated stream ends before a required fixed-size field —
the verb byte, START_BLOCK's block number, a segment length, END_BANK's CRC
word, TO_BE_CONTD's five skip bytes — or before the L bytes of a segment, the
assembler ends its output normally and silently with no error; and no partial
bank is ever yielded: every bank of a successful result has at least 8 data
bytes, its id and version read from its first two little-endian words. -/
theorem bankAssembler_truncation_silent :
    (∀ buf st, assemble [] st buf = .ok [] ∧ assemble [OPCODE] st buf = .ok [])
    ∧ (∀ r2 buf st, r2.length < 4 → assemble (OPCODE :: START_BLOCK :: r2) st buf = .ok [])
    ∧ (∀ r2 buf st, r2.length < 4 →
        assemble (OPCODE :: START_BANK :: r2) st buf = .ok []
        ∧ assemble (OPCODE :: CONTINUE :: r2) st buf = .ok [])
    ∧ (∀ r2 buf st, 4 ≤ r2.length → (r2.drop 4).length < readU32le (r2.take 4) →
        assemble (OPCODE :: START_BANK :: r2) st buf = .ok []
        ∧ assemble (OPCODE :: CONTINUE :: r2) st buf = .ok [])
    ∧ (∀ r2 buf st, r2.length < 5 → assemble (OPCODE :: TO_BE_CONTD :: r2) st buf = .ok [])
    ∧ (∀ r2 buf st, r2.length < 4 → assemble (OPCODE :: END_BANK :: r2) st buf = .ok [])
    ∧ (∀ s st buf banks, assemble s st buf = .ok banks →
        ∀ bk ∈ banks, 8 ≤ bk.data.length
          ∧ bk.bank_id = readU32le (bk.data.take 4)
          ∧ bk.bank_version = readU32le ((bk.data.drop 4).take 4)) :=
  ⟨fun buf st => ⟨assemble_nil st buf, assemble_lone_op st buf⟩,
   fun r2 buf st h => assemble_start_block_trunc r2 buf st h,
   fun r2 buf st h => assemble_seg_trunc_len r2 buf st h,
   fun r2 buf st h4 hL => assemble_seg_trunc_data r2 buf st h4 hL,
   fun r2 buf st h => assemble_tbc_trunc r2 buf st h,
   fun r2 buf st h => assemble_eb_trunc r2 buf st h,
   fun s st buf banks h => assemble_ok_complete s st buf banks h⟩

set_option maxRecDepth 100000 in
/-- Witness for C6: concrete truncated streams end with no banks and no error,
and the bank yielded by a complete one-bank stream satisfies the completeness
facts. -/
theorem bankAssembler_truncation_silent_witness :
    assemble [] false [] = .ok []
    ∧ assemble [OPCODE] true [9] = .ok []
    ∧ assemble [OPCODE, START_BLOCK, 1, 2] true [9] = .ok []
    ∧ assemble [OPCODE, START_BANK, 9, 9] true [9] = .ok []
    ∧ assemble [OPCODE, CONTINUE, 5, 0, 0, 0] true [9] = .ok []
    ∧ assemble [OPCODE, TO_BE_CONTD, 1, 2, 3] true [9] = .ok []
    ∧ assemble [OPCODE, END_BANK, 1] true [9] = .ok []
    ∧ (8 ≤ (Bank.mk 1 2 [1, 0, 0, 0, 2, 0, 0, 0]).data.length
        ∧ (Bank.mk 1 2 [1, 0, 0, 0, 2, 0, 0, 0]).bank_id =
            readU32le ((Bank.mk 1 2 [1, 0, 0, 0, 2, 0, 0, 0]).data.take 4)
        ∧ (Bank.mk 1 2 [1, 0, 0, 0, 2, 0, 0, 0]).bank_version =
            readU32le (((Bank.mk 1 2 [1, 0, 0, 0, 2, 0, 0, 0]).data.drop 4).take 4)) := by
  have hrun : assemble (OPCODE :: START_BANK ::
      ([8, 0, 0, 0] ++ [1, 0, 0, 0, 2, 0, 0, 0] ++ [OPCODE, END_BANK, 0xC9, 0xB8, 0, 0]))
      false [] = .ok [⟨1, 2, [1, 0, 0, 0, 2, 0, 0, 0]⟩] := by
    rw [assemble_sb_eq _ _ _ (by decide) (by decide)]
    show assemble [OPCODE, END_BANK, 0xC9, 0xB8, 0, 0] true [1, 0, 0, 0, 2, 0, 0, 0] = _
    rw [assemble_eb_emit _ _ _ (by decide) (by decide) (by decide)]
    show (assemble [] false []).map _ = _
    rw [assemble_nil]
    rfl
  refine ⟨(bankAssembler_truncation_silent.1 [] false).1,
    (bankAssembler_truncation_silent.1 [9] true).2,
    bankAssembler_truncation_silent.2.1 [1, 2] [9] true (by decide),
    (bankAssembler_truncation_silent.2.2.1 [9, 9] [9] true (by decide)).1,
    (bankAssembler_truncation_silent.2.2.2.1 [5, 0, 0, 0] [9] true (by decide) (by decide)).2,
    bankAssembler_truncation_silent.2.2.2.2.1 [1, 2, 3] [9] true (by decide),
    bankAssembler_truncation_silent.2.2.2.2.2.1 [1] [9] true (by decide),
    bankAssembler_truncation_silent.2.2.2.2.2.2 _ false [] _ hrun
      ⟨1, 2, [1, 0, 0, 0, 2, 0, 0, 0]⟩ (List.mem_singleton.mpr rfl)⟩

/-- Counterexample for C9: with start id 1, stop id 2 and markers stripped, a
start marker arriving while an event is open with an empty accumulated list
emits nothing — the code guards the emit with a non-emptiness test — so the
run start, start, stop yields one event, not the two the claimed force-emit of
a "possibly empty" first event would produce. -/
theorem eventAssembler_start_empty_no_emit :
    eventStep ⟨1, 2, false⟩ (true, [], []) ⟨1, 0, []⟩ = (true, [], [])
    ∧ runEvents ⟨1, 2, false⟩ [⟨1, 0, []⟩, ⟨1, 0, []⟩, ⟨2, 0, []⟩] = [⟨[]⟩] := by
  constructor <;> rfl

/-- C9 amended: on a bank whose id equals the start id, the open event's
accumulated banks are emitted first iff the event is open and the accumulated
list is non-empty (an open event with empty accumulated banks is silently
replaced), and the new event's buffer contains the start marker bank iff
keep_markers is set. -/
theorem eventAssembler_start_rules (cfg : EvCfg) (inEvent : Bool) (banks : List Bank)
    (out : List Event) (bank : Bank) (hid : bank.bank_id = cfg.startId) :
    eventStep cfg (inEvent, banks, out) bank =
      (true, (if cfg.keepMarkers then [bank] else []),
        out ++ (if inEvent ∧ banks ≠ [] then [⟨banks⟩] else [])) := by
  unfold eventStep
  by_cases h : (inEvent : Prop) ∧ banks ≠ []
  · simp [hid, h]
  · simp [hid, h]

/-- Witness for C9 at a concrete state: a start marker with one accumulated
bank emits it and opens a new event containing the kept marker. -/
theorem eventAssembler_start_rules_witness :
    eventStep ⟨1, 2, true⟩ (true, [⟨3, 0, []⟩], []) ⟨1, 0, []⟩ =
      (true, [⟨1, 0, []⟩], [⟨[⟨3, 0, []⟩]⟩]) := by
  have h := eventAssembler_start_rules ⟨1, 2, true⟩ true [⟨3, 0, []⟩] [] ⟨1, 0, []⟩ rfl
  rw [h]
  rfl

/-- Counterexample for C7: the expression 2 * 3, which is none of the claimed
closed forms (symbolic lookup, integer literal, comparison of atoms), is
nevertheless evaluated successfully — `_eval_expr` hands every non-dollar
string to Python's builtin eval, which accepts general expressions — so the
expression language is not the claimed closed three-form grammar. -/
theorem evalExpr_not_closed_grammar :
    eval_expr (.binop .mul (.lit 2) (.lit 3)) [] = .ok (.int 6)
    ∧ specClosedForm (.binop .mul (.lit 2) (.lit 3)) = false
    ∧ ¬ (∀ (e : PyExpr) (ctx : Ctx) (v : PyVal),
          eval_expr e ctx = .ok v → specClosedForm e = true) := by
  refine ⟨rfl, rfl, fun h => ?_⟩
  have := h (.binop .mul (.lit 2) (.lit 3)) [] (.int 6) rfl
  simp [specClosedForm, specAtom] at this

/-- C7 amended: evaluation handles the dollar form as a direct lookup of a
previously stored field and integer literals directly, while every other form
goes through Python's eval on the embedded fragment; on this fragment
evaluation is a pure function of the expression and the field mapping: it is
deterministic, side-effect free, and depends only on the bindings of the
expression's free field names. -/
theorem evalExpr_deterministic_fragment :
    (∀ k ctx, eval_expr (.dollar k) ctx =
      (match List.lookup k ctx with
       | some v => .ok v
       | none => .error .keyError))
    ∧ (∀ n ctx, eval_expr (.lit n) ctx = .ok (.int n))
    ∧ (∀ (e : PyExpr) (c1 c2 : Ctx),
        (∀ k ∈ freeVars e, List.lookup k c1 = List.lookup k c2) →
        eval_expr e c1 = eval_expr e c2) := by
  refine ⟨fun k ctx => rfl, fun n ctx => rfl, fun e => ?_⟩
  induction e with
  | dollar k =>
    intro c1 c2 h
    have hk := h k (by simp [freeVars])
    simp [eval_expr, hk]
  | name k =>
    intro c1 c2 h
    have hk := h k (by simp [freeVars])
    simp [eval_expr, hk]
  | lit n =>
    intro c1 c2 h
    rfl
  | binop op a b iha ihb =>
    intro c1 c2 h
    have ha := iha c1 c2 (fun k hk => h k (by simp [freeVars, hk]))
    have hb := ihb c1 c2 (fun k hk => h k (by simp [freeVars, hk]))
    simp [eval_expr, ha, hb]
  | cmp op a b iha ihb =>
    intro c1 c2 h
    have ha := iha c1 c2 (fun k hk => h k (by simp [freeVars, hk]))
    have hb := ihb c1 c2 (fun k hk => h k (by simp [freeVars, hk]))
    simp [eval_expr, ha, hb]
  | index a i iha ihi =>
    intro c1 c2 h
    have ha := iha c1 c2 (fun k hk => h k (by simp [freeVars, hk]))
    have hi := ihi c1 c2 (fun k hk => h k (by simp [freeVars, hk]))
    simp [eval_expr, ha, hi]

/-- Witness for C7's amended theorem: a field lookup evaluates identically in
two contexts that agree on that field, regardless of unrelated bindings. -/
theorem evalExpr_deterministic_fragment_witness :
    eval_expr (.name "x") [("x", .int 5)] =
      eval_expr (.name "x") [("x", .int 5), ("y", .int 9)] :=
  evalExpr_deterministic_fragment.2.2 (.name "x") [("x", .int 5)]
    [("x", .int 5), ("y", .int 9)] (by simp [freeVars])

/-- Counterexample for C8: no declared primitive type tag is a 64-bit
integer — every integer tag has stored width 2 or 4, and the only 8-byte tag
is the 64-bit float — so the claimed inventory of signed/unsigned 16-, 32- and
64-bit integers does not match the declared tags. -/
theorem typedExtraction_no_int64_tag :
    (¬ ∃ t : Ty, isIntTy t = true ∧ SIZEOF t = 8)
    ∧ SIZEOF .i4 = 4 ∧ isIntTy .i4 = true
    ∧ SIZEOF .i2asi4 = 2 ∧ isIntTy .i2asi4 = true
    ∧ SIZEOF .i4asui2 = 2 ∧ isIntTy .i4asui2 = true
    ∧ SIZEOF .r4 = 4 ∧ isIntTy .r4 = false
    ∧ SIZEOF .r8 = 8 ∧ isIntTy .r8 = false := by
  refine ⟨?_, rfl, rfl, rfl, rfl, rfl, rfl, rfl, rfl, rfl, rfl⟩
  rintro ⟨t, h1, h2⟩
  cases t <;> simp [isIntTy, SIZEOF] at h1 h2

/-- Each declared tag has a positive stored width. -/
theorem SIZEOF_pos (f : Ty) : 0 < SIZEOF f := by
  cases f <;> decide

/-- C8 amended: for each of the five declared tags (signed 32-bit, signed
16-bit promoted, unsigned 16-bit promoted, 32-bit float, 64-bit float), typed
extraction reads one fixed-width little-endian value per count from the
cursor, advancing the cursor by the stored width per value, and raises the
fatal truncation error exactly when fewer bytes remain than the declared
widths require. -/
theorem typedExtraction_fixed_width (data : List Nat) (f : Ty) (c : Nat) :
    ∀ off : Nat,
    (off + c * SIZEOF f ≤ data.length →
      unpack_values data off f c =
        .ok ((List.range c).map
              (fun k => decodeLE f ((data.drop (off + k * SIZEOF f)).take (SIZEOF f))),
             off + c * SIZEOF f))
    ∧ (0 < c → data.length < off + c * SIZEOF f →
      unpack_values data off f c = .error .truncated) := by
  induction c with
  | zero =>
    intro off
    refine ⟨fun h => ?_, fun h0 _ => absurd h0 (by omega)⟩
    simp [unpack_values]
  | succ n ih =>
    intro off
    have hs : (n + 1) * SIZEOF f = n * SIZEOF f + SIZEOF f := Nat.succ_mul n (SIZEOF f)
    have hpos := SIZEOF_pos f
    have hchunk : ((data.drop off).take (SIZEOF f)).length = min (SIZEOF f) (data.length - off) := by
      simp [List.length_take, List.length_drop]
    constructor
    · intro h
      have hfit : ¬ (((data.drop off).take (SIZEOF f)).length < SIZEOF f) := by
        rw [hchunk]
        omega
      rw [unpack_values]
      rw [if_neg hfit]
      have hrec := (ih (off + SIZEOF f)).1 (by omega)
      rw [hrec]
      simp only [Except.map]
      congr 1
      simp only [Prod.mk.injEq]
      constructor
      · rw [List.range_succ_eq_map]
        simp only [List.map_cons, List.map_map]
        congr 1
        · norm_num
        · apply List.map_congr_left
          intro k _
          have h1 : off + Nat.succ k * SIZEOF f = off + SIZEOF f + k * SIZEOF f := by
            rw [Nat.succ_mul]
            omega
          have h2 : off + (k + 1) * SIZEOF f = off + SIZEOF f + k * SIZEOF f := by
            rw [add_one_mul]
            omega
          simp only [Function.comp_apply, Nat.succ_eq_add_one, h1, h2]
      · omega
    · intro _ h
      by_cases hfit : ((data.drop off).take (SIZEOF f)).length < SIZEOF f
      · rw [unpack_values, if_pos hfit]
      · rw [unpack_values, if_neg hfit]
        rw [hchunk, Nat.not_lt, Nat.le_min] at hfit
        have hn : 0 < n := by
          rcases Nat.eq_zero_or_pos n with h0 | h0
          · subst h0
            norm_num at h
            omega
          · exact h0
        have hrec := (ih (off + SIZEOF f)).2 hn (by omega)
        rw [hrec]
        rfl

/-- Witness for C8's amended theorem: one 32-bit signed value 1 is read from a
6-byte buffer advancing the cursor to 4, and reading one 32-bit value from a
1-byte buffer is the truncation error. -/
theorem typedExtraction_fixed_width_witness :
    unpack_values [1, 0, 0, 0, 5, 0] 0 .i4 1 = .ok ([.int 1], 4)
    ∧ unpack_values [1] 0 .i4 1 = .error .truncated := by
  constructor
  · have h := (typedExtraction_fixed_width [1, 0, 0, 0, 5, 0] .i4 1 0).1 (by decide)
    rw [h]
    rfl
  · exact (typedExtraction_fixed_width [1] .i4 1 0).2 (by decide) (by decide)

/-- A first recipe op that fails makes the whole interpretation fail with its
error, whatever follows. -/
theorem interpret_recipe_cons_error (data : List Nat) (op : RecipeOp) (rest : List RecipeOp)
    (e : RecErr) (h : interpOp data (0, []) op = .error e) :
    interpret_recipe data (op :: rest) = .error e := by
  unfold interpret_recipe
  rw [List.foldlM_cons, h]
  rfl

/-- C10: an unpack operation whose count expression evaluates to 0 makes
interpret_recipe raise the Python IndexError — the selection `vals[0]` indexes
the empty list of extracted values instead of storing an empty field — both
without a loop descriptor and in the first unguarded iteration of a loop, so a
zero count at the decode interface is a crash, not a decoded empty field. -/
theorem interpretRecipe_zero_count (data : List Nat) (op : RecipeOp) (rest : List RecipeOp)
    (hU : op.isUnpack = true) (hc : op.cond = none) :
    (op.loop = none → evalCount op.count [] = .ok 0 →
      interpret_recipe data (op :: rest) = .error .indexError)
    ∧ (∀ l (b : PyVal) (bn : Int), op.loop = some l → op.guard = none →
        eval_expr l.bound [] = .ok b → toIntCoerce b = .ok bn → 0 < bn →
        evalCount op.count [(l.var, PyVal.int 0)] = .ok 0 →
        interpret_recipe data (op :: rest) = .error .indexError) := by
  constructor
  · intro hl hcnt
    apply interpret_recipe_cons_error
    unfold interpOp
    rw [hU]
    simp only [hc, hl]
    simp only [hcnt]
    rfl
  · intro l b bn hl hg hb1 hb2 hpos hcnt
    apply interpret_recipe_cons_error
    unfold interpOp
    rw [hU]
    simp only [hc, hl]
    have hm : bn.toNat = (bn.toNat - 1) + 1 := by omega
    simp only [hb1, hb2]
    have hrl : runLoop data op l.var []
        ((List.range bn.toNat).map Int.ofNat) 0 [] = .error .indexError := by
      rw [hm, List.range_succ_eq_map]
      simp only [List.map_cons]
      rw [runLoop]
      simp only [hg]
      have h0 : Int.ofNat 0 = (0 : Int) := rfl
      rw [h0]
      simp only [hcnt]
      rfl
    show (do
        let bound ← toIntCoerce b
        let oc ← runLoop data op l.var [] ((List.range bound.toNat).map Int.ofNat) 0 []
        Except.ok (oc.1, [(op.field, PyVal.list oc.2)])) = Except.error RecErr.indexError
    rw [hb2]
    show (do
        let oc ← runLoop data op l.var [] ((List.range bn.toNat).map Int.ofNat) 0 []
        Except.ok (oc.1, [(op.field, PyVal.list oc.2)])) = Except.error RecErr.indexError
    rw [hrl]
    rfl

/-- Witness for C10: an unpack op with literal count 0 over empty data raises
the IndexError, and so does a looped op with bound 2 and count 0 over data
that would suffice for other counts. -/
theorem interpretRecipe_zero_count_witness :
    interpret_recipe [] [RecipeOp.mk true .i4 "x" (.lit 0) none none none] =
      .error .indexError
    ∧ interpret_recipe [9, 0, 0, 0]
        [RecipeOp.mk true .i4 "x" (.lit 0) none (some (LoopSpec.mk "i" (.lit 2))) none] =
      .error .indexError := by
  constructor
  · exact (interpretRecipe_zero_count [] _ [] rfl rfl).1 rfl rfl
  · exact (interpretRecipe_zero_count [9, 0, 0, 0] _ [] rfl rfl).2
      (LoopSpec.mk "i" (.lit 2)) (.int 2) 2 rfl rfl rfl rfl (by decide) rfl

end Dst2ak
